import Mathlib

/-!
Verification of the transcript-parsing core of `cc-snapshot-viewer`
(`src/transcriptParser.ts`, `src/types.ts`).

The TypeScript code is shallowly embedded: JS objects become structures with
`Option` fields for possibly-absent properties, `Map`/`Set` containers become
association lists / duplicate-free lists with the same insertion-order
semantics, filesystem state becomes an explicit `DirState` parameter, and the
`JSON.parse` line decoder becomes an explicit `decode` function parameter.
Node's POSIX `path.normalize` / `path.basename` / `path.join` are embedded
directly.  Loops that walk `parentUuid` links are given fuel
(`entries.length + 1`); the JS loops diverge on cyclic inputs, and on all
terminating inputs the fuel version agrees with the source.
-/

namespace CCSV

/-- `FileBackup` from `types.ts`: one entry of `trackedFileBackups`. -/
structure FileBackup where
  backupFileName : String
  version : Nat
  backupTime : Option String := none
deriving Repr, DecidableEq

/-- `TrackedFileBackups` from `types.ts`: a JSON object mapping file paths to
backups, embedded as an association list in key-insertion order. -/
abbrev TrackedFileBackups := List (String × FileBackup)

/-- One element of an assistant message's `content` array.  Only the fields the
parser reads (`type`, `name`) are modelled. -/
structure ContentBlock where
  btype : String := ""
  name : Option String := none
deriving Repr, DecidableEq

/-- The `toolUseResult` payload of a user entry.  Only the fields the parser
reads (`filePath`, `originalFile`) are modelled; `none` means the JSON property
is absent. -/
structure ToolUseResult where
  filePath : Option String := none
  originalFile : Option String := none
deriving Repr, DecidableEq

/-- A decoded transcript line (`TranscriptEntry` in `types.ts`).  The union of
the fields the parser reads from the `user`, `assistant` and
`file-history-snapshot` variants; `none` / default means the property is
absent from the JSON object. `userText` is `message.content` when it is a
plain string (block-array content is `none`, which is all the parser
distinguishes). -/
structure Entry where
  type : String
  uuid : Option String := none
  parentUuid : Option String := none
  isMeta : Bool := false
  userText : Option String := none
  sessionId : Option String := none
  cwd : Option String := none
  timestamp : String := ""
  toolUseResult : Option ToolUseResult := none
  assistantBlocks : Option (List ContentBlock) := none
  messageId : String := ""
  trackedFileBackups : TrackedFileBackups := []
deriving Repr, DecidableEq

/-- `ParsedPrompt` from `types.ts` (the `Date` wrapper on `timestamp` and
nothing else is elided; `editedFiles` is the JS `Set` in insertion order and
`originalFileContents` the JS `Map` in insertion order). -/
structure ParsedPrompt where
  promptNumber : Nat
  messageId : String
  parentMessageId : Option String
  text : String
  timestamp : String
  beforeSnapshot : TrackedFileBackups
  afterSnapshot : TrackedFileBackups
  toolsUsed : List String
  editedFiles : List String
  originalFileContents : List (String × String)
deriving Repr, DecidableEq

/-- `ParsedSession` from `types.ts` (`transcriptPath` and the fs-derived
`lastUpdated` metadata are elided). -/
structure ParsedSession where
  sessionId : String
  projectPath : String
  prompts : List ParsedPrompt
deriving Repr, DecidableEq

/-- State of the on-disk `~/.claude/file-history/<sessionId>` directory as the
parser can observe it: absent (`existsSync` false), present but unreadable
(`readdirSync` throws), or a readable listing. -/
inductive DirState where
  | missing
  | unreadable
  | files (names : List String)
deriving Repr, DecidableEq

/-- JS truthiness filter for an optional string: `null`/`undefined`/`""` are
falsy. -/
def truthyStr (o : Option String) : Option String :=
  match o with
  | some s => if s = "" then none else some s
  | none => none

/-- JS `a || b` for string-valued expressions: fall through on a falsy
(`undefined` or `""`) left operand. -/
def orElseTruthy (a b : Option String) : Option String :=
  match a with
  | some s => if s = "" then b else some s
  | none => b

/-- JS `Set.add`: append if not already present (insertion order kept). -/
def addUnique (l : List String) (s : String) : List String :=
  if l.contains s then l else l ++ [s]

/-- `entries.find(e => 'uuid' in e && e.uuid === target)` (transcriptParser.ts
lines 130/133/157/161). -/
def findByUuid (entries : List Entry) (target : Option String) : Option Entry :=
  match target with
  | none => none
  | some s => entries.find? (fun e => e.uuid == some s)

/-- `getUuid` helper of `findActiveConversationPath` (lines 517-522): the
`uuid` property when it is a nonempty string. -/
def getUuid (e : Entry) : Option String := truthyStr e.uuid

/-- `getParentUuid` helper (lines 525-530). -/
def getParentUuid (e : Entry) : Option String := truthyStr e.parentUuid

/-- The `entryByUuid` map (lines 533-539): built by a forward pass with
overwriting `set`, so a lookup returns the last entry carrying that truthy
uuid. -/
def entryByUuid (entries : List Entry) (u : String) : Option Entry :=
  (entries.filter (fun e => getUuid e == some u)).getLast?

/-- Lines 542-549: the last entry in the log carrying a (truthy) uuid. -/
def lastIdentified (entries : List Entry) : Option Entry :=
  (entries.filter (fun e => (getUuid e).isSome)).getLast?

/-- The backward walk of `findActiveConversationPath` (lines 557-571),
collecting uuids into the insertion-ordered set `activeUuids`.  Fuel bounds
the iteration; the JS loop diverges on a `parentUuid` cycle, and agrees with
this on every terminating input. -/
def activeWalk (entries : List Entry) : Nat → Entry → List String → List String
  | 0, _, acc => acc
  | fuel + 1, cur, acc =>
    let acc' := match getUuid cur with
      | some u => addUnique acc u
      | none => acc
    match getParentUuid cur with
    | some p =>
      match entryByUuid entries p with
      | some nxt => activeWalk entries fuel nxt acc'
      | none => acc'
    | none => acc'

/-- `findActiveConversationPath` (lines 513-574): uuids on the active
conversation path, as the insertion-ordered contents of the JS `Set`. -/
def findActiveConversationPath (entries : List Entry) : List String :=
  match lastIdentified entries with
  | none => []
  | some e => activeWalk entries (entries.length + 1) e []

/-- The tool-attribution walk (lines 128-134): starting from an assistant
entry's `parentUuid`, repeatedly replace `rootId` by the current entry's
truthy `parentUuid` (keeping `rootId` on a falsy one) until an entry of type
`user` is reached or the lookup fails. -/
def walkToolRootAux (entries : List Entry) :
    Nat → Option String → Option Entry → Option String
  | 0, rootId, _ => rootId
  | fuel + 1, rootId, current =>
    match current with
    | none => rootId
    | some cur =>
      if cur.type = "user" then rootId
      else
        let rootId' := match truthyStr cur.parentUuid with
          | some p => some p
          | none => rootId
        walkToolRootAux entries fuel rootId' (findByUuid entries rootId')

/-- Lines 129-134 as a function of the starting `parentUuid`. -/
def walkToolRoot (entries : List Entry) (parentId : Option String) : Option String :=
  walkToolRootAux entries (entries.length + 1) parentId (findByUuid entries parentId)

/-- The edited-file attribution walk (lines 156-162): like `walkToolRoot` but
it only stops at a *plain-text* user entry, and a falsy `parentUuid` aborts
the walk with no root (`rootId = undefined; break`). -/
def walkEditRootAux (entries : List Entry) :
    Nat → Option String → Option Entry → Option String
  | 0, rootId, _ => rootId
  | fuel + 1, rootId, current =>
    match current with
    | none => rootId
    | some cur =>
      if cur.type = "user" && cur.userText.isSome then rootId
      else
        match truthyStr cur.parentUuid with
        | none => none
        | some p => walkEditRootAux entries fuel (some p) (findByUuid entries (some p))

/-- Lines 156-162 as a function of the starting `parentUuid`. -/
def walkEditRoot (entries : List Entry) (parentId : Option String) : Option String :=
  walkEditRootAux entries (entries.length + 1) parentId (findByUuid entries parentId)

/-- First pass, tool usage (lines 120-145): the `(rootId, toolName)` records
fed into `toolsPerPrompt`, in log order.  One record per `tool_use` content
block with a truthy `name`, keyed by the truthy root the walk produced. -/
def toolPairs (entries : List Entry) : List (String × String) :=
  entries.flatMap fun e =>
    if e.type = "assistant" then
      match e.assistantBlocks with
      | none => []
      | some blocks =>
        blocks.filterMap fun c =>
          if c.btype = "tool_use" then
            match truthyStr c.name with
            | some nm =>
              match truthyStr (walkToolRoot entries e.parentUuid) with
              | some r => some (r, nm)
              | none => none
            | none => none
          else none
    else []

/-- The truthy root recorded for a user entry carrying a `toolUseResult`
(lines 156-164). -/
def editRootOf (entries : List Entry) (e : Entry) : Option String :=
  truthyStr (walkEditRoot entries e.parentUuid)

/-- First pass, edited files (lines 149-168): the `(rootId, filePath)` records
fed into `editedFilesPerPrompt`, in log order. -/
def editedPairs (entries : List Entry) : List (String × String) :=
  entries.filterMap fun e =>
    if e.type = "user" then
      match e.toolUseResult with
      | some tur =>
        match truthyStr tur.filePath with
        | some fp => (editRootOf entries e).map (fun r => (r, fp))
        | none => none
      | none => none
    else none

/-- First pass, original contents (lines 170-185): the
`(rootId, filePath, originalFile)` records fed into
`originalContentsPerPrompt`, in log order. -/
def origTriples (entries : List Entry) : List (String × String × String) :=
  entries.filterMap fun e =>
    if e.type = "user" then
      match e.toolUseResult with
      | some tur =>
        match truthyStr tur.filePath with
        | some fp =>
          match tur.originalFile with
          | some orig => (editRootOf entries e).map (fun r => (r, fp, orig))
          | none => none
        | none => none
      | none => none
    else none

/-- `Array.from(toolsPerPrompt.get(m) || [])` (line 229): the per-key view of
the `Map<string, Set<string>>`, i.e. the tool names recorded for root `m`,
de-duplicated in first-occurrence order. -/
def toolsUsedFor (entries : List Entry) (m : String) : List String :=
  (((toolPairs entries).filter (fun pr => pr.1 == m)).map (fun pr => pr.2)).foldl addUnique []

/-- `editedFilesPerPrompt.get(m) || new Set()` (line 230), in insertion
order. -/
def editedFilesFor (entries : List Entry) (m : String) : List String :=
  (((editedPairs entries).filter (fun pr => pr.1 == m)).map (fun pr => pr.2)).foldl addUnique []

/-- `originalContentsPerPrompt.get(m) || new Map()` (line 231): per path, the
first `originalFile` recorded for root `m` (lines 176-184), in insertion
order. -/
def originalContentsFor (entries : List Entry) (m : String) : List (String × String) :=
  (((origTriples entries).filter (fun tr => tr.1 == m)).map (fun tr => tr.2)).foldl
    (fun acc pc => if acc.any (fun x => x.1 == pc.1) then acc else acc ++ [pc]) []

/-- `snapshotMap.get(m) || {}` (lines 96-106, 219): `Map.set` overwrites, so
the value is the `trackedFileBackups` of the last `file-history-snapshot`
entry declaring message id `m`. -/
def snapshotFor (entries : List Entry) (m : String) : TrackedFileBackups :=
  match (entries.filter
      (fun e => e.type == "file-history-snapshot" && e.messageId == m)).getLast? with
  | some e => e.trackedFileBackups
  | none => []

/-- `latestSnapshot` (lines 97-105): the `trackedFileBackups` of the last
`file-history-snapshot` entry in the log, `{}` if there is none. -/
def latestSnapshot (entries : List Entry) : TrackedFileBackups :=
  match (entries.filter (fun e => e.type == "file-history-snapshot")).getLast? with
  | some e => e.trackedFileBackups
  | none => []

/-! ## Backup Store Reconciler (`getLatestSnapshotFromDisk`, lines 439-503) -/

/-- `parseInt(ds, 10)` on an all-digit string. -/
def digitsToNat (ds : List Char) : Nat :=
  ds.foldl (fun n c => n * 10 + (c.toNat - 48)) 0

/-- Scan for the regex `/^(.+)@v(\d+)$/` over the reversed character list:
consume the maximal digit suffix, then require `v`, `@` and a nonempty
remainder.  (With a greedy `(.+)` the digit group is necessarily the maximal
digit suffix of the string, so the match is unique when it exists.)  Returns
`(reversed hash characters, digit characters in order)`. -/
def parseVRev : List Char → List Char → Option (List Char × List Char)
  | [], _ => none
  | c :: rest, acc =>
    if c.isDigit then parseVRev rest (c :: acc)
    else if c = 'v' ∧ acc ≠ [] ∧ rest.head? = some '@' ∧ rest.tail ≠ [] then
      some (rest.tail, acc)
    else none

/-- `name.match(/^(.+)@v(\d+)$/)` (lines 457-460): the capture groups
`(hash, version)` when the backup-filename pattern matches. -/
def parseVersioned (s : String) : Option (String × Nat) :=
  (parseVRev s.data.reverse []).map fun pr => (⟨pr.1.reverse⟩, digitsToNat pr.2)

/-- `str.split('@')[0]` (line 478): the characters before the first `'@'`. -/
def beforeFirstAt (s : String) : String :=
  ⟨s.data.takeWhile (fun c => c ≠ '@')⟩

/-- The per-hash view of the `filesByHash` map (lines 454-467, 479):
`filesByHash.get(h)` lists, in directory order, the `(version, fileName)`
pairs of the listed names whose regex hash group equals `h`. -/
def filesByHashGet (names : List String) (h : String) : List (Nat × String) :=
  names.filterMap fun f =>
    match parseVersioned f with
    | some (hf, v) => if hf = h then some (v, f) else none
    | none => none

/-- `versions.reduce((max, curr) => curr.version > max.version ? curr : max)`
(lines 483-485). -/
def reduceLatest (head : Nat × String) (tail : List (Nat × String)) : Nat × String :=
  tail.foldl (fun mx cur => if cur.1 > mx.1 then cur else mx) head

/-- The body of the reconciliation loop (lines 470-496) for a single base
snapshot entry. -/
def reconcileEntry (names : List String) (b : FileBackup) : FileBackup :=
  if b.backupFileName = "" then b
  else
    match parseVersioned b.backupFileName with
    | none => b
    | some _ =>
      let hash := beforeFirstAt b.backupFileName
      match filesByHashGet names hash with
      | [] => b
      | v :: vs =>
        let latest := reduceLatest v vs
        if latest.1 > b.version then
          { b with backupFileName := latest.2, version := latest.1 }
        else b

/-- `getLatestSnapshotFromDisk` (lines 439-503).  A missing directory returns
the base unchanged (lines 446-448); a `readdirSync` failure is caught before
any entry is updated, so it also returns the base unchanged (lines 450,
497-500); otherwise every entry of the copied base is reconciled in place. -/
def getLatestSnapshotFromDisk (dir : DirState) (base : TrackedFileBackups) :
    TrackedFileBackups :=
  match dir with
  | .missing => base
  | .unreadable => base
  | .files names => base.map (fun pb => (pb.1, reconcileEntry names pb.2))

/-! ## Session assembly (`parseTranscript`, lines 58-262) -/

/-- The guard of the second pass (lines 197-213): a `user` entry whose
`message.content` is a plain string, that is not flagged `isMeta`, and whose
`uuid` is in `activeUuids`.  (`Set.has` on an absent uuid is false, and the
active set only ever holds nonempty strings.) -/
def isPromptEntry (active : List String) (e : Entry) : Bool :=
  e.type == "user" && e.userText.isSome && !e.isMeta &&
    (match e.uuid with
     | some u => active.contains u
     | none => false)

/-- The second pass (lines 196-236): build the prompt list, allocating
`promptNumber` by a running counter (`n` prompts already emitted). -/
def buildPrompts (entries : List Entry) (active : List String) :
    Nat → List Entry → List ParsedPrompt
  | _, [] => []
  | n, e :: rest =>
    if isPromptEntry active e then
      { promptNumber := n + 1
        messageId := e.uuid.getD ""
        parentMessageId := e.parentUuid
        text := e.userText.getD ""
        timestamp := e.timestamp
        beforeSnapshot := snapshotFor entries (e.uuid.getD "")
        afterSnapshot := []
        toolsUsed := toolsUsedFor entries (e.uuid.getD "")
        editedFiles := editedFilesFor entries (e.uuid.getD "")
        originalFileContents := originalContentsFor entries (e.uuid.getD "") } ::
        buildPrompts entries active (n + 1) rest
    else buildPrompts entries active n rest

/-- The third pass (lines 240-250): every prompt but the last takes the next
prompt's `beforeSnapshot` as its `afterSnapshot`; the last takes the
reconciled latest snapshot.  (The loop reads only `beforeSnapshot` fields,
which it never writes, so the in-place JS loop equals this recursion.) -/
def linkPrompts (reconciled : TrackedFileBackups) :
    List ParsedPrompt → List ParsedPrompt
  | [] => []
  | [p] => [{ p with afterSnapshot := reconciled }]
  | p :: q :: rest =>
    { p with afterSnapshot := q.beforeSnapshot } :: linkPrompts reconciled (q :: rest)

/-- Lines 80-261 of `parseTranscript`: assemble a session from the decoded
entry list, with the file-history directory passed explicitly. -/
def assembleSession (dir : DirState) (entries : List Entry) : ParsedSession :=
  let firstUser := entries.find? (fun e => e.type == "user" && e.sessionId.isSome)
  let sessionId := match firstUser with
    | some e => e.sessionId.getD ""
    | none => ""
  let projectPath := match firstUser with
    | some e => e.cwd.getD ""
    | none => ""
  let active := findActiveConversationPath entries
  let prompts := buildPrompts entries active 0 entries
  { sessionId := sessionId
    projectPath := projectPath
    prompts := linkPrompts (getLatestSnapshotFromDisk dir (latestSnapshot entries)) prompts }

/-- JS `String.prototype.trim`: strip leading and trailing whitespace
(embedded over the character list so that it evaluates in the kernel). -/
def jsTrim (s : String) : String :=
  ⟨(((s.data.dropWhile Char.isWhitespace).reverse.dropWhile Char.isWhitespace).reverse)⟩

/-- JS `str.split(sep)` over the character list; `''.split(sep)` is `['']`.
(Embedded over character lists so that it evaluates in the kernel.) -/
def splitOnChar (sep : Char) (cs : List Char) : List (List Char) :=
  cs.foldr
    (fun c acc =>
      match acc with
      | [] => [[c]]
      | a :: rest => if c = sep then [] :: a :: rest else (c :: a) :: rest)
    [[]]

/-- JS `str.split('\n')`. -/
def splitOnNl (cs : List Char) : List String :=
  (splitOnChar '\n' cs).map (fun l => ⟨l⟩)

/-- Lines 63-64: split the raw transcript text into nonblank lines
(`content.trim().split('\n').filter(line => line.trim())`). -/
def logLines (content : String) : List String :=
  (splitOnNl (jsTrim content).data).filter (fun l => jsTrim l ≠ "")

/-- Lines 66-74: decode each line independently, skipping lines on which the
decoder fails (`JSON.parse` throwing).  The decoder is a parameter of the
embedding. -/
def parseEntries (decode : String → Option Entry) (content : String) : List Entry :=
  (logLines content).filterMap decode

/-- `parseTranscript` (lines 58-262).  `file = none` models a missing
transcript file (lines 59-61); an entry-less log returns `null`
(lines 76-78). -/
def parseTranscript (decode : String → Option Entry) (dir : DirState)
    (file : Option String) : Option ParsedSession :=
  match file with
  | none => none
  | some content =>
    let entries := parseEntries decode content
    if entries.isEmpty then none
    else some (assembleSession dir entries)

/-! ## Node POSIX path functions used by `getFileChangesForPrompt` -/

/-- The component loop of Node's `normalizeString`: drop empty and `"."`
components; on `".."` pop a poppable component, else keep the `".."` only for
relative paths (`allowAboveRoot`). -/
def normParts (allowAboveRoot : Bool) (parts : List String) : List String :=
  parts.foldl
    (fun acc part =>
      if part = "" || part = "." then acc
      else if part = ".." then
        match acc.getLast? with
        | some last =>
          if last = ".." then (if allowAboveRoot then acc ++ [".."] else acc)
          else acc.dropLast
        | none => if allowAboveRoot then [".."] else acc
      else acc ++ [part])
    []

/-- The path split into `/`-separated components. -/
def splitOnSlash (p : String) : List String :=
  (splitOnChar '/' p.data).map (fun l => ⟨l⟩)

/-- Whether the path starts with `/` (Node `path.posix.isAbsolute`). -/
def startsWithSlash (p : String) : Bool :=
  match p.data with
  | '/' :: _ => true
  | _ => false

/-- Whether the path ends with `/`. -/
def endsWithSlash (p : String) : Bool :=
  p.data.getLast? == some '/'

/-- Join components with `/` (the tail of Node's `normalizeString`). -/
def joinSlash (parts : List String) : String :=
  match parts with
  | [] => ""
  | q :: rest => rest.foldl (fun acc r => acc ++ "/" ++ r) q

/-- Node `path.posix.normalize` (the `normalizeFilePath` helper, line 275). -/
def normalizeFilePath (p : String) : String :=
  if p = "" then "."
  else
    let isAbs := startsWithSlash p
    let trailingSep := endsWithSlash p
    let core := joinSlash (normParts (!isAbs) (splitOnSlash p))
    if core = "" then
      if isAbs then "/" else if trailingSep then "./" else "."
    else
      let core2 := if trailingSep then core ++ "/" else core
      if isAbs then "/" ++ core2 else core2

/-- Node `path.posix.basename` (the `getBasename` helper, line 276): the last
nonempty `/`-separated component, `""` for `""` or all-separator paths. -/
def getBasename (p : String) : String :=
  (((splitOnSlash p).reverse).dropWhile (fun c => c = "")).headD ""

/-- Node `path.posix.isAbsolute`. -/
def pathIsAbsolute (p : String) : Bool := startsWithSlash p

/-- Node `path.posix.join` on two segments: concatenate the nonempty segments
with `/` and normalize; `.` when both are empty. -/
def pathJoin (a b : String) : String :=
  if a = "" && b = "" then "."
  else if a = "" then normalizeFilePath b
  else if b = "" then normalizeFilePath a
  else normalizeFilePath (a ++ "/" ++ b)

/-- The `toAbsolutePath` helper (lines 279-288); `projectPath` is the optional
second argument of `getFileChangesForPrompt` and a falsy (absent or empty)
value leaves relative paths untouched. -/
def toAbsolutePath (projectPath : Option String) (p : String) : String :=
  if pathIsAbsolute p then normalizeFilePath p
  else
    match projectPath with
    | some proj => if proj = "" then p else pathJoin proj p
    | none => p

/-! ## Change-Set Deriver (`getFileChangesForPrompt`, lines 269-414) -/

/-- `FileChange` from `types.ts`. -/
inductive ChangeType where
  | added
  | modified
  | deleted
deriving Repr, DecidableEq

/-- `FileChange` from `types.ts`. -/
structure FileChange where
  filePath : String
  changeType : ChangeType
  beforeBackup : Option FileBackup
  afterBackup : Option FileBackup
  promptNumber : Nat
  promptText : String
  originalContent : Option String := none
deriving Repr, DecidableEq

/-- Exact JS object-key lookup `snapshot[k]`. -/
def objGet (s : TrackedFileBackups) (k : String) : Option FileBackup :=
  (s.find? (fun kv => kv.1 == k)).map (fun kv => kv.2)

/-- `snapshot[fp] || Object.entries(snapshot).find(([k]) =>
normalizeFilePath(k) === fp)?.[1]` (lines 297-300); backups are objects, hence
truthy whenever present. -/
def snapLookup (s : TrackedFileBackups) (fp : String) : Option FileBackup :=
  match objGet s fp with
  | some b => some b
  | none => (s.find? (fun kv => normalizeFilePath kv.1 == fp)).map (fun kv => kv.2)

/-- JS `Map.get` on the original-contents map. -/
def mapGetStr (m : List (String × String)) (k : String) : Option String :=
  (m.find? (fun kv => kv.1 == k)).map (fun kv => kv.2)

/-- The union of normalized before/after snapshot keys (lines 290-293), in JS
`Set` insertion order. -/
def allFiles (prompt : ParsedPrompt) : List String :=
  ((prompt.beforeSnapshot.map (fun kv => normalizeFilePath kv.1)) ++
    (prompt.afterSnapshot.map (fun kv => normalizeFilePath kv.1))).foldl addUnique []

/-- The original-content resolution chain of the first-touch branch
(lines 315-319): exact path, then exact absolute path, then the first map
entry matching by normalized path or basename — with JS `||` falling through
an empty-string hit. -/
def resolveOriginalStep2 (prompt : ParsedPrompt) (projectPath : Option String)
    (fp : String) : Option String :=
  orElseTruthy (mapGetStr prompt.originalFileContents fp)
    (orElseTruthy (mapGetStr prompt.originalFileContents (toAbsolutePath projectPath fp))
      ((prompt.originalFileContents.find? (fun kv =>
          normalizeFilePath kv.1 == fp || getBasename kv.1 == getBasename fp)).map
        (fun kv => kv.2)))

/-- The classification of one union path by the snapshot-diff loop
(lines 295-376): the change it pushes, if any. -/
def classify2 (prompt : ParsedPrompt) (projectPath : Option String) (fp : String) :
    Option FileChange :=
  let before := snapLookup prompt.beforeSnapshot fp
  let after := snapLookup prompt.afterSnapshot fp
  match before, after with
  | none, some _ =>
    let absFp := toAbsolutePath projectPath fp
    match resolveOriginalStep2 prompt projectPath fp with
    | some c =>
      some { filePath := absFp, changeType := .modified, beforeBackup := none,
             afterBackup := none, promptNumber := prompt.promptNumber,
             promptText := prompt.text, originalContent := some c }
    | none =>
      some { filePath := absFp, changeType := .added, beforeBackup := none,
             afterBackup := none, promptNumber := prompt.promptNumber,
             promptText := prompt.text, originalContent := none }
  | some b, none =>
    some { filePath := toAbsolutePath projectPath fp, changeType := .deleted,
           beforeBackup := some b, afterBackup := none,
           promptNumber := prompt.promptNumber, promptText := prompt.text,
           originalContent := none }
  | some b, some a =>
    if b.version ≠ a.version then
      some { filePath := toAbsolutePath projectPath fp, changeType := .modified,
             beforeBackup := some b, afterBackup := some a,
             promptNumber := prompt.promptNumber, promptText := prompt.text,
             originalContent := none }
    else none
  | none, none => none

/-- The contents of `detectedFiles` after the snapshot-diff loop: each union
path that produced a change contributed itself, its absolutized form, and its
basename (lines 343-346, 358-360, 372-374). -/
def detected2 (prompt : ParsedPrompt) (projectPath : Option String) : List String :=
  (allFiles prompt).foldl
    (fun acc fp =>
      if (classify2 prompt projectPath fp).isSome then
        acc ++ [fp, toAbsolutePath projectPath fp, getBasename fp]
      else acc)
    []

/-- The backup resolution chain of the edited-files loop (lines 386-390):
exact path, then exact basename, then the first snapshot entry matching by
normalized path or basename. -/
def editedBackup (prompt : ParsedPrompt) (e : String) : Option FileBackup :=
  match objGet prompt.beforeSnapshot e with
  | some b => some b
  | none =>
    match objGet prompt.beforeSnapshot (getBasename e) with
    | some b => some b
    | none =>
      (prompt.beforeSnapshot.find? (fun kv =>
          normalizeFilePath kv.1 == normalizeFilePath e ||
          getBasename kv.1 == getBasename e)).map (fun kv => kv.2)

/-- The original-content resolution chain of the edited-files loop
(lines 392-397). -/
def editedOriginal (prompt : ParsedPrompt) (e : String) : Option String :=
  orElseTruthy (mapGetStr prompt.originalFileContents e)
    (orElseTruthy (mapGetStr prompt.originalFileContents (normalizeFilePath e))
      ((prompt.originalFileContents.find? (fun kv =>
          normalizeFilePath kv.1 == normalizeFilePath e ||
          getBasename kv.1 == getBasename e)).map (fun kv => kv.2)))

/-- The change pushed for an edited file that survives the duplicate check
(lines 399-407). -/
def mkEditedChange (prompt : ParsedPrompt) (e : String) : FileChange :=
  let backup := editedBackup prompt e
  let orig := editedOriginal prompt e
  { filePath := normalizeFilePath e
    changeType := if backup.isSome || orig.isSome then .modified else .added
    beforeBackup := backup
    afterBackup := none
    promptNumber := prompt.promptNumber
    promptText := prompt.text
    originalContent := if backup.isSome then none else orig }

/-- The edited-files loop (lines 380-411), threading the `detectedFiles` set:
a file matching it by normalized path or basename is skipped; otherwise its
change is pushed and both forms are added to the set. -/
def editedPass (prompt : ParsedPrompt) :
    List String → List String → List FileChange
  | _, [] => []
  | detected, e :: rest =>
    let ne := normalizeFilePath e
    let eb := getBasename e
    if detected.contains ne || detected.contains eb then
      editedPass prompt detected rest
    else
      mkEditedChange prompt e :: editedPass prompt (detected ++ [ne, eb]) rest

/-- `getFileChangesForPrompt` (lines 269-414): the snapshot-diff changes in
union order followed by the edited-file changes. -/
def getFileChangesForPrompt (prompt : ParsedPrompt) (projectPath : Option String) :
    List FileChange :=
  (allFiles prompt).filterMap (classify2 prompt projectPath) ++
    editedPass prompt (detected2 prompt projectPath) prompt.editedFiles

/-! ## Concrete fixtures used by evaluation theorems and witnesses -/

/-- A plain-text, non-meta user event carrying no `uuid` (for C1). -/
def userNoId : Entry :=
  { type := "user"
    userText := some "hello"
    sessionId := some "s1"
    cwd := some "/w" }

/-- A plain-text user prompt with uuid `A` (for C2). -/
def userPromptA : Entry :=
  { type := "user"
    uuid := some "A"
    userText := some "fix the bug"
    sessionId := some "s"
    cwd := some "/w" }

/-- An assistant event (uuid `S1`, parent `A`) invoking the `Edit` tool. -/
def assistantS1 : Entry :=
  { type := "assistant"
    uuid := some "S1"
    parentUuid := some "A"
    assistantBlocks := some [{ btype := "tool_use", name := some "Edit" }] }

/-- A tool-result user event (uuid `B`, parent `S1`): its `message.content` is
a block array, not a plain string. -/
def toolResultB : Entry :=
  { type := "user"
    uuid := some "B"
    parentUuid := some "S1"
    toolUseResult := some { filePath := some "f.ts", originalFile := some "old" } }

/-- An assistant event (uuid `S2`, parent `B`) invoking the `Bash` tool. -/
def assistantS2 : Entry :=
  { type := "assistant"
    uuid := some "S2"
    parentUuid := some "B"
    assistantBlocks := some [{ btype := "tool_use", name := some "Bash" }] }

/-- The four-event log of the C2 counterexample: prompt, tool call, tool
result, second tool call. -/
def toolChainLog : List Entry := [userPromptA, assistantS1, toolResultB, assistantS2]

/-- A prompt whose `editedFiles` holds two distinct paths sharing the basename
`f.ts`, with empty snapshots (for C8). -/
def twinEditedPrompt : ParsedPrompt :=
  { promptNumber := 1
    messageId := "A"
    parentMessageId := none
    text := "t"
    timestamp := ""
    beforeSnapshot := []
    afterSnapshot := []
    toolsUsed := []
    editedFiles := ["a/f.ts", "b/f.ts"]
    originalFileContents := [] }

/-- A plain-text, non-meta user event with uuid `u` and parent `par` (for the
C3 chain family and session witnesses). -/
def chainUser (u : String) (par : Option String) : Entry :=
  { type := "user"
    uuid := some u
    parentUuid := par
    userText := some "hi"
    sessionId := some "s"
    cwd := some "/w" }

/-- The C3 log family: the chain `a ← b ← c ← d` (with `d` last in the log)
plus a sibling user event `e` parented at `p`, appended mid-log. -/
def chainLog (a b c d e p : String) : List Entry :=
  [chainUser a none, chainUser b (some a), chainUser e (some p),
   chainUser c (some b), chainUser d (some c)]

/-- A `file-history-snapshot` event declaring message id `m`. -/
def fhSnap (m : String) (tb : TrackedFileBackups) : Entry :=
  { type := "file-history-snapshot"
    messageId := m
    trackedFileBackups := tb }

/-- Version-1 backup of hash `h`. -/
def backupF1 : FileBackup := { backupFileName := "h@v1", version := 1 }

/-- Version-2 backup of hash `h`. -/
def backupF2 : FileBackup := { backupFileName := "h@v2", version := 2 }

/-- A two-prompt log with a snapshot keyed at the second prompt (for the C5
witness). -/
def twoPromptLog : List Entry :=
  [chainUser "P1" none, fhSnap "P1" [], chainUser "P2" (some "P1"),
   fhSnap "P2" [("f.ts", backupF1)]]

/-- A prompt whose file `f.ts` changed version between the two snapshots (for
the C7 witness). -/
def versionedPrompt : ParsedPrompt :=
  { promptNumber := 2
    messageId := "M"
    parentMessageId := none
    text := "change it"
    timestamp := ""
    beforeSnapshot := [("f.ts", backupF1)]
    afterSnapshot := [("f.ts", backupF2)]
    toolsUsed := []
    editedFiles := []
    originalFileContents := [] }

/-- A prompt with equal before/after snapshots and one edited file covered by
a before-snapshot backup (for the C8 witness). -/
def editedOnlyPrompt : ParsedPrompt :=
  { promptNumber := 3
    messageId := "M"
    parentMessageId := none
    text := "edit it"
    timestamp := ""
    beforeSnapshot := [("f.ts", backupF1)]
    afterSnapshot := [("f.ts", backupF1)]
    toolsUsed := []
    editedFiles := ["f.ts"]
    originalFileContents := [] }

/-- Base snapshot for the C6 witness. -/
def reconBase : TrackedFileBackups := [("f", backupF1)]

/-- Disk listing for the C6 witness: versions 1 and 2 of hash `h`. -/
def reconNames : List String := ["h@v1", "h@v2"]

/-- A line decoder for loader witnesses: only the line `u` decodes. -/
def decodeOnlyU (s : String) : Option Entry :=
  if s = "u" then some userNoId else none

/-- Ten well-formed lines followed by one malformed line. -/
def contentTenPlusBad : String :=
  "u\nu\nu\nu\nu\nu\nu\nu\nu\nu\nx"

/-- The same ten well-formed lines alone. -/
def contentTenGood : String :=
  "u\nu\nu\nu\nu\nu\nu\nu\nu\nu"

/-! ## Theorems -/

/-- C1: in a log in which no event carries an id, the active-id set is indeed
empty — but `parseTranscript` does *not* treat the empty set as "include
everything": the guard `activeUuids.has(userEntry.uuid)` (line 211) is false
for every event, so a plain-text, non-meta user event produces *no* prompt,
contradicting the claim, spec §4.2 and the code's own comment at line 552
("all prompts will be shown"). -/
theorem c1_no_id_log_yields_no_prompts :
    findActiveConversationPath [userNoId] = [] ∧
    userNoId.type = "user" ∧ userNoId.userText.isSome = true ∧ userNoId.isMeta = false ∧
    (assembleSession .missing [userNoId]).prompts = [] := by
  refine ⟨rfl, rfl, rfl, rfl, rfl⟩

/-- C2: in the log `[prompt A, assistant S1 (tool Edit), tool-result user B,
assistant S2 (tool Bash)]`, the attribution walk for the `Bash` invocation
stops at the *tool-result* user event `B` (whose content is not plain text)
instead of walking on to the plain-text prompt `A`: the loop at line 131 stops
at any `user` node.  Consequently prompt `A`'s `toolsUsed` is `["Edit"]`,
missing `Bash`. -/
theorem c2_tool_attributed_to_tool_result_event :
    toolPairs toolChainLog = [("A", "Edit"), ("B", "Bash")] ∧
    toolResultB.type = "user" ∧ toolResultB.userText = none ∧
    (assembleSession .missing toolChainLog).prompts.map
      (fun p => (p.messageId, p.toolsUsed)) = [("A", ["Edit"])] := by
  refine ⟨rfl, rfl, rfl, rfl⟩

/-- C10: a transcript file that exists but yields no decodable entries
(empty, whitespace-only, or every line malformed) parses to `null`, not to a
session with zero prompts. -/
theorem c10_no_entries_yields_null (decode : String → Option Entry) (dir : DirState)
    (content : String) (h : parseEntries decode content = []) :
    parseTranscript decode dir (some content) = none := by
  simp [parseTranscript, h]

/-- Witness for C10 at whitespace-only content. -/
theorem c10_no_entries_yields_null_witness :
    parseEntries decodeOnlyU "  \n " = [] ∧
    parseTranscript decodeOnlyU .missing (some "  \n ") = none :=
  ⟨rfl, c10_no_entries_yields_null decodeOnlyU .missing "  \n " rfl⟩

/-- C9: lines are decoded independently and a malformed line is skipped
without invalidating the rest: a log whose lines are ten well-formed lines
with one undecodable line inserted parses to exactly the session of the ten
well-formed lines alone, and some session is produced (no failure). -/
theorem c9_malformed_line_skipped (decode : String → Option Entry) (dir : DirState)
    (content good bad : String) (pre suf : List String)
    (hc : logLines content = pre ++ bad :: suf)
    (hg : logLines good = pre ++ suf)
    (hbad : decode bad = none)
    (hgood : ∀ l ∈ pre ++ suf, (decode l).isSome)
    (hlen : (pre ++ suf).length = 10) :
    parseTranscript decode dir (some content) = parseTranscript decode dir (some good) ∧
    (parseTranscript decode dir (some content)).isSome := by
  have hent : parseEntries decode content = parseEntries decode good := by
    unfold parseEntries
    rw [hc, hg]
    simp [List.filterMap_append, List.filterMap_cons, hbad]
  have hpos : 0 < (pre ++ suf).length := by omega
  obtain ⟨l₀, hl₀⟩ := List.exists_mem_of_length_pos hpos
  obtain ⟨e, he⟩ := Option.isSome_iff_exists.mp (hgood l₀ hl₀)
  have hl₀' : l₀ ∈ pre ++ bad :: suf := by
    rcases List.mem_append.mp hl₀ with h | h
    · exact List.mem_append.mpr (Or.inl h)
    · exact List.mem_append.mpr (Or.inr (List.mem_cons_of_mem _ h))
  have hmem : e ∈ parseEntries decode content := by
    unfold parseEntries
    rw [hc]
    exact List.mem_filterMap.mpr ⟨l₀, hl₀', he⟩
  have hne : parseEntries decode content ≠ [] := List.ne_nil_of_mem hmem
  refine ⟨?_, ?_⟩
  · simp only [parseTranscript]
    rw [hent]
  · simp [parseTranscript, List.isEmpty_iff, hne]

/-- Witness for C9: ten `u` lines plus a trailing malformed `x` line. -/
theorem c9_malformed_line_skipped_witness :
    (logLines contentTenPlusBad = List.replicate 10 "u" ++ "x" :: [] ∧
      logLines contentTenGood = List.replicate 10 "u" ++ [] ∧
      decodeOnlyU "x" = none ∧
      (∀ l ∈ List.replicate 10 "u" ++ ([] : List String), (decodeOnlyU l).isSome) ∧
      (List.replicate 10 "u" ++ ([] : List String)).length = 10) ∧
    parseTranscript decodeOnlyU .missing (some contentTenPlusBad) =
      parseTranscript decodeOnlyU .missing (some contentTenGood) ∧
    (parseTranscript decodeOnlyU .missing (some contentTenPlusBad)).isSome :=
  ⟨⟨by decide, by decide, by decide, by decide, by decide⟩,
    c9_malformed_line_skipped decodeOnlyU .missing contentTenPlusBad contentTenGood "x"
      (List.replicate 10 "u") [] (by decide) (by decide) (by decide) (by decide) (by decide)⟩

/-- A second-pass prompt always carries a uuid that is in the active set. -/
theorem isPromptEntry_uuid {active : List String} {e : Entry}
    (h : isPromptEntry active e = true) :
    ∃ u, e.uuid = some u ∧ u ∈ active := by
  unfold isPromptEntry at h
  simp only [Bool.and_eq_true] at h
  obtain ⟨⟨_, _⟩, hm⟩ := h
  cases hu : e.uuid with
  | none => rw [hu] at hm; simp at hm
  | some u =>
    rw [hu] at hm
    exact ⟨u, rfl, by simpa [List.elem_iff] using hm⟩

/-- Every prompt built by the second pass has its messageId in the active
set (the guard at line 211). -/
theorem mem_buildPrompts_messageId_active (entries : List Entry) (active : List String) :
    ∀ (n : Nat) (es : List Entry) (pr : ParsedPrompt),
      pr ∈ buildPrompts entries active n es → pr.messageId ∈ active := by
  intro n es
  induction es generalizing n with
  | nil => intro pr h; simp [buildPrompts] at h
  | cons e rest ih =>
    intro pr h
    rw [buildPrompts] at h
    by_cases hp : isPromptEntry active e
    · rw [if_pos hp] at h
      rcases List.mem_cons.mp h with h | h
      · obtain ⟨u, hu, hm⟩ := isPromptEntry_uuid hp
        subst h
        simpa [hu] using hm
      · exact ih _ _ h
    · rw [if_neg hp] at h
      exact ih _ _ h

/-- The third pass does not change message ids. -/
theorem linkPrompts_map_messageId (snap : TrackedFileBackups) :
    ∀ ps : List ParsedPrompt,
      (linkPrompts snap ps).map (fun p => p.messageId) = ps.map (fun p => p.messageId) := by
  intro ps
  induction ps with
  | nil => rfl
  | cons p t ih =>
    cases t with
    | nil => rfl
    | cons q r => simpa [linkPrompts] using ih

/-- Each linked prompt's messageId comes from an unlinked prompt. -/
theorem mem_linkPrompts_messageId (snap : TrackedFileBackups) (ps : List ParsedPrompt)
    (pr : ParsedPrompt) (h : pr ∈ linkPrompts snap ps) :
    ∃ q ∈ ps, q.messageId = pr.messageId := by
  have hmem : pr.messageId ∈ ps.map (fun p => p.messageId) := by
    rw [← linkPrompts_map_messageId snap ps]
    exact List.mem_map_of_mem _ h
  obtain ⟨q, hq, he⟩ := List.mem_map.mp hmem
  exact ⟨q, hq, he⟩

/-- Every assembled prompt's messageId lies on the active conversation
path. -/
theorem assembleSession_messageId_active (dir : DirState) (entries : List Entry)
    (pr : ParsedPrompt) (h : pr ∈ (assembleSession dir entries).prompts) :
    pr.messageId ∈ findActiveConversationPath entries := by
  simp only [assembleSession] at h
  obtain ⟨q, hq, he⟩ := mem_linkPrompts_messageId _ _ _ h
  rw [← he]
  exact mem_buildPrompts_messageId_active entries _ _ _ q hq

/-- C3: for the chain family `a ← b ← c ← d` (with `d` the log's last
identified event) and a sibling user event `e` parented at any chain node
`p ∈ {a, b, c}`, the active-id set is exactly `{a, b, c, d}`; the sibling's
id is excluded and no assembled prompt carries it, so it contributes no
prompt number. -/
theorem c3_active_path_excludes_sibling (a b c d e p : String) (dir : DirState)
    (ha : a ≠ "") (hb : b ≠ "") (hc : c ≠ "") (hd : d ≠ "") (he : e ≠ "")
    (hab : a ≠ b) (hac : a ≠ c) (had : a ≠ d) (hbc : b ≠ c) (hbd : b ≠ d)
    (hcd : c ≠ d) (hea : e ≠ a) (heb : e ≠ b) (hec : e ≠ c) (hed : e ≠ d)
    (_hp : p ∈ ([a, b, c] : List String)) :
    (∀ x, x ∈ findActiveConversationPath (chainLog a b c d e p) ↔
      x ∈ ([a, b, c, d] : List String)) ∧
    e ∉ findActiveConversationPath (chainLog a b c d e p) ∧
    ∀ pr ∈ (assembleSession dir (chainLog a b c d e p)).prompts, pr.messageId ≠ e := by
  have hactive : findActiveConversationPath (chainLog a b c d e p) = [d, c, b, a] := by
    simp [findActiveConversationPath, lastIdentified, chainLog, chainUser, getUuid,
      getParentUuid, truthyStr, entryByUuid, activeWalk, addUnique,
      ha, hb, hc, hd, he, hab, Ne.symm hab, hac, Ne.symm hac, had, Ne.symm had,
      hbc, Ne.symm hbc, hbd, Ne.symm hbd, hcd, Ne.symm hcd,
      hea, Ne.symm hea, heb, Ne.symm heb, hec, Ne.symm hec, hed, Ne.symm hed]
  refine ⟨?_, ?_, ?_⟩
  · intro x
    rw [hactive]
    simp only [List.mem_cons, List.not_mem_nil, or_false]
    tauto
  · rw [hactive]
    simp [hea, heb, hec, hed]
  · intro pr hpr heq
    have hmem := assembleSession_messageId_active dir _ pr hpr
    rw [hactive, heq] at hmem
    simp [hea, heb, hec, hed] at hmem

/-- Witness for C3 at the ids `A, B, C, D, E` with the sibling parented at
`A`. -/
theorem c3_active_path_excludes_sibling_witness :
    (("A" : String) ≠ "" ∧ ("A" : String) ∈ (["A", "B", "C"] : List String)) ∧
    ("E" ∉ findActiveConversationPath (chainLog "A" "B" "C" "D" "E" "A") ∧
      ∀ pr ∈ (assembleSession .missing (chainLog "A" "B" "C" "D" "E" "A")).prompts,
        pr.messageId ≠ "E") :=
  ⟨⟨by decide, by decide⟩,
    (c3_active_path_excludes_sibling "A" "B" "C" "D" "E" "A" .missing
      (by decide) (by decide) (by decide) (by decide) (by decide)
      (by decide) (by decide) (by decide) (by decide) (by decide)
      (by decide) (by decide) (by decide) (by decide) (by decide) (by decide)).2⟩

/-- Message ids of the prompt list: exactly the uuids of the active,
plain-text, non-meta user events, in log order. -/
theorem buildPrompts_map_messageId (entries : List Entry) (active : List String) :
    ∀ (n : Nat) (es : List Entry),
      (buildPrompts entries active n es).map (fun p => p.messageId) =
        (es.filter (isPromptEntry active)).filterMap (fun e => e.uuid) := by
  intro n es
  induction es generalizing n with
  | nil => rfl
  | cons e rest ih =>
    rw [buildPrompts, List.filter_cons]
    by_cases hp : isPromptEntry active e
    · obtain ⟨u, hu, _⟩ := isPromptEntry_uuid hp
      rw [if_pos hp, if_pos hp]
      simp [List.filterMap_cons, hu, ih]
    · rw [if_neg hp, if_neg (by simpa using hp)]
      exact ih n

/-- Prompt numbers are consecutive starting after the running counter. -/
theorem buildPrompts_map_promptNumber (entries : List Entry) (active : List String) :
    ∀ (n : Nat) (es : List Entry),
      (buildPrompts entries active n es).map (fun p => p.promptNumber) =
        List.range' (n + 1) ((es.filter (isPromptEntry active)).length) := by
  intro n es
  induction es generalizing n with
  | nil => rfl
  | cons e rest ih =>
    rw [buildPrompts, List.filter_cons]
    by_cases hp : isPromptEntry active e
    · rw [if_pos hp, if_pos hp]
      simp only [List.map_cons, List.length_cons, List.range'_succ, List.cons.injEq]
      exact ⟨trivial, ih (n + 1)⟩
    · rw [if_neg hp, if_neg (by simpa using hp)]
      exact ih n

/-- The third pass does not change prompt numbers. -/
theorem linkPrompts_map_promptNumber (snap : TrackedFileBackups) :
    ∀ ps : List ParsedPrompt,
      (linkPrompts snap ps).map (fun p => p.promptNumber) =
        ps.map (fun p => p.promptNumber) := by
  intro ps
  induction ps with
  | nil => rfl
  | cons p t ih =>
    cases t with
    | nil => rfl
    | cons q r => simpa [linkPrompts] using ih

/-- C4: the assembled prompts correspond one-to-one, in log order, to the
plain-text, non-meta user events whose id is in the active-id set (no other
event contributes a prompt), and their `promptNumber`s are `1, 2, …` in
order. -/
theorem c4_one_prompt_per_active_user_event (dir : DirState) (entries : List Entry) :
    (assembleSession dir entries).prompts.map (fun p => p.messageId) =
      (entries.filter (isPromptEntry (findActiveConversationPath entries))).filterMap
        (fun e => e.uuid) ∧
    (assembleSession dir entries).prompts.map (fun p => p.promptNumber) =
      List.range' 1
        ((entries.filter (isPromptEntry (findActiveConversationPath entries))).length) := by
  constructor
  · simp only [assembleSession]
    rw [linkPrompts_map_messageId, buildPrompts_map_messageId]
  · simp only [assembleSession]
    rw [linkPrompts_map_promptNumber, buildPrompts_map_promptNumber]

/-- The third pass preserves length. -/
theorem linkPrompts_length (snap : TrackedFileBackups) :
    ∀ ps : List ParsedPrompt, (linkPrompts snap ps).length = ps.length := by
  intro ps
  induction ps with
  | nil => rfl
  | cons p t ih =>
    cases t with
    | nil => rfl
    | cons q r => simpa [linkPrompts] using ih

/-- The third pass preserves nonemptiness. -/
theorem linkPrompts_ne_nil (snap : TrackedFileBackups) (ps : List ParsedPrompt)
    (h : ps ≠ []) : linkPrompts snap ps ≠ [] := by
  intro hc
  have hl := linkPrompts_length snap ps
  rw [hc] at hl
  exact h (List.eq_nil_of_length_eq_zero hl.symm)

/-- The third pass does not change `beforeSnapshot`s. -/
theorem linkPrompts_get_before (snap : TrackedFileBackups) :
    ∀ (ps : List ParsedPrompt) (i : Nat) (h : i < ps.length)
      (h2 : i < (linkPrompts snap ps).length),
      ((linkPrompts snap ps).get ⟨i, h2⟩).beforeSnapshot =
        (ps.get ⟨i, h⟩).beforeSnapshot := by
  intro ps
  induction ps with
  | nil => intro i h _; exact absurd h (by simp)
  | cons p t ih =>
    intro i h h2
    cases t with
    | nil =>
      cases i with
      | zero => rfl
      | succ j => simp at h
    | cons q r =>
      cases i with
      | zero => rfl
      | succ j =>
        have hj : j < (q :: r).length := by simpa using h
        have hj2 : j < (linkPrompts snap (q :: r)).length := by
          rw [linkPrompts_length]; exact hj
        exact ih j hj hj2

/-- Each non-final linked prompt's `afterSnapshot` is the following unlinked
prompt's `beforeSnapshot`. -/
theorem linkPrompts_get_after (snap : TrackedFileBackups) :
    ∀ (ps : List ParsedPrompt) (i : Nat) (h : i + 1 < ps.length)
      (h2 : i < (linkPrompts snap ps).length),
      ((linkPrompts snap ps).get ⟨i, h2⟩).afterSnapshot =
        (ps.get ⟨i + 1, h⟩).beforeSnapshot := by
  intro ps
  induction ps with
  | nil => intro i h _; simp at h
  | cons p t ih =>
    intro i h h2
    cases t with
    | nil => simp at h
    | cons q r =>
      cases i with
      | zero => rfl
      | succ j =>
        have hj : j + 1 < (q :: r).length := by simpa using h
        have hj2 : j < (linkPrompts snap (q :: r)).length := by
          rw [linkPrompts_length]; omega
        exact ih j hj hj2

/-- The final linked prompt's `afterSnapshot` is the reconciled snapshot. -/
theorem linkPrompts_getLast_after (snap : TrackedFileBackups) :
    ∀ (ps : List ParsedPrompt) (h : linkPrompts snap ps ≠ []),
      ((linkPrompts snap ps).getLast h).afterSnapshot = snap := by
  intro ps
  induction ps with
  | nil => intro h; exact absurd rfl h
  | cons p t ih =>
    intro h
    cases t with
    | nil => rfl
    | cons q r =>
      have hne : linkPrompts snap (q :: r) ≠ [] :=
        linkPrompts_ne_nil snap (q :: r) (by simp)
      show ((({ p with afterSnapshot := q.beforeSnapshot }) ::
        linkPrompts snap (q :: r)).getLast (by simp)).afterSnapshot = snap
      rw [List.getLast_cons hne]
      exact ih hne

/-- C5: in every assembled session, each prompt but the last has
`afterSnapshot` equal to the next prompt's `beforeSnapshot`, and the last
prompt's `afterSnapshot` equals the Backup Store Reconciler applied to the
`trackedFileBackups` of the last `file-history-snapshot` event of the log.
(The embedding is immutable, so these final values are never mutated
afterwards.) -/
theorem c5_after_snapshot_linking (dir : DirState) (entries : List Entry) :
    (∀ (i : Nat) (h1 : i + 1 < (assembleSession dir entries).prompts.length),
      (((assembleSession dir entries).prompts).get ⟨i, Nat.lt_of_succ_lt h1⟩).afterSnapshot =
        (((assembleSession dir entries).prompts).get ⟨i + 1, h1⟩).beforeSnapshot) ∧
    ∀ (h2 : (assembleSession dir entries).prompts ≠ []),
      ((assembleSession dir entries).prompts.getLast h2).afterSnapshot =
        getLatestSnapshotFromDisk dir (latestSnapshot entries) := by
  constructor
  · intro i h1
    simp only [assembleSession] at h1 ⊢
    have hlen : i + 1 <
        (buildPrompts entries (findActiveConversationPath entries) 0 entries).length := by
      rw [← linkPrompts_length (getLatestSnapshotFromDisk dir (latestSnapshot entries))]
      exact h1
    rw [linkPrompts_get_after _ _ i hlen, linkPrompts_get_before _ _ (i + 1) hlen]
  · intro h2
    simp only [assembleSession] at h2 ⊢
    exact linkPrompts_getLast_after _ _ h2

/-- Witness for C5 on the two-prompt log. -/
theorem c5_after_snapshot_linking_witness :
    (0 + 1 < (assembleSession .missing twoPromptLog).prompts.length ∧
      (assembleSession .missing twoPromptLog).prompts ≠ []) ∧
    ((assembleSession .missing twoPromptLog).prompts.get ⟨0, by decide⟩).afterSnapshot =
      ((assembleSession .missing twoPromptLog).prompts.get ⟨1, by decide⟩).beforeSnapshot ∧
    ((assembleSession .missing twoPromptLog).prompts.getLast (by decide)).afterSnapshot =
      getLatestSnapshotFromDisk .missing (latestSnapshot twoPromptLog) :=
  ⟨⟨by decide, by decide⟩,
    (c5_after_snapshot_linking .missing twoPromptLog).1 0 (by decide),
    (c5_after_snapshot_linking .missing twoPromptLog).2 (by decide)⟩


/-- Unfolding equation for the pattern scan. -/
theorem parseVRev_cons (c : Char) (rest acc : List Char) :
    parseVRev (c :: rest) acc =
      if c.isDigit then parseVRev rest (c :: acc)
      else if c = 'v' ∧ acc ≠ [] ∧ rest.head? = some '@' ∧ rest.tail ≠ [] then
        some (rest.tail, acc)
      else none := rfl

/-- A successful scan splits the reversed input as digits, `v`, `@`, hash. -/
theorem parseVRev_sound :
    ∀ (rcs acc pre ds : List Char), parseVRev rcs acc = some (pre, ds) →
      ∃ dcs, rcs = dcs ++ 'v' :: '@' :: pre ∧ ds = dcs.reverse ++ acc := by
  intro rcs
  induction rcs with
  | nil => intro acc pre ds h; simp [parseVRev] at h
  | cons c rest ih =>
    intro acc pre ds h
    rw [parseVRev_cons] at h
    by_cases hdig : c.isDigit
    · rw [if_pos hdig] at h
      obtain ⟨dcs, h1, h2⟩ := ih (c :: acc) pre ds h
      exact ⟨c :: dcs, by simp [h1], by simp [h2]⟩
    · rw [if_neg hdig] at h
      by_cases hv : c = 'v' ∧ acc ≠ [] ∧ rest.head? = some '@' ∧ rest.tail ≠ []
      · rw [if_pos hv] at h
        obtain ⟨h1, h2⟩ := Prod.mk.injEq .. ▸ Option.some.inj h
        obtain ⟨hc, _, hhd, _⟩ := hv
        cases rest with
        | nil => simp at hhd
        | cons c2 rest2 =>
          refine ⟨[], ?_, by simp [h2]⟩
          have hc2 : c2 = '@' := by simpa using hhd
          simp only [List.nil_append]
          rw [hc, hc2]
          simp only [List.tail_cons] at h1
          rw [h1]
      · rw [if_neg hv] at h
        simp at h

/-- A name matching the backup pattern is `hash ++ "@v" ++ tail`. -/
theorem parseVersioned_structure (s : String) (hsh : String) (v : Nat)
    (hp : parseVersioned s = some (hsh, v)) :
    ∃ tail, s.data = hsh.data ++ '@' :: 'v' :: tail := by
  unfold parseVersioned at hp
  cases hrev : parseVRev s.data.reverse [] with
  | none => rw [hrev] at hp; simp at hp
  | some pr =>
    rw [hrev] at hp
    obtain ⟨pre, ds⟩ := pr
    simp only [Option.map_some', Option.some.injEq, Prod.mk.injEq] at hp
    obtain ⟨hh, _⟩ := hp
    obtain ⟨dcs, h1, _⟩ := parseVRev_sound _ _ _ _ hrev
    refine ⟨dcs.reverse, ?_⟩
    have hd : s.data = (dcs ++ 'v' :: '@' :: pre).reverse := by
      rw [← h1]; simp
    rw [hd, ← hh]
    simp

/-- `takeWhile` stops exactly at the first failing element. -/
theorem takeWhile_append_of_pos {p : Char → Bool} :
    ∀ (l1 : List Char) (a : Char) (l2 : List Char), (∀ x ∈ l1, p x = true) →
      p a = false → (l1 ++ a :: l2).takeWhile p = l1 := by
  intro l1 a l2 h1 h2
  induction l1 with
  | nil => simp [List.takeWhile, h2]
  | cons x t ih =>
    have hx : p x = true := h1 x (by simp)
    simp only [List.cons_append, List.takeWhile_cons, hx, if_true]
    rw [ih (fun y hy => h1 y (by simp [hy]))]

/-- When the regex hash contains no `@`, the `split('@')[0]` hash of the
recorded name (line 478) agrees with the regex capture hash. -/
theorem beforeFirstAt_of_parse (s : String) (hsh : String) (v : Nat)
    (hp : parseVersioned s = some (hsh, v)) (hat : '@' ∉ hsh.data) :
    beforeFirstAt s = hsh := by
  obtain ⟨tail, hd⟩ := parseVersioned_structure s hsh v hp
  unfold beforeFirstAt
  rw [hd]
  have hall : ∀ x ∈ hsh.data, decide (x ≠ '@') = true := by
    intro x hx
    simp only [decide_eq_true_eq]
    intro hxa
    exact hat (hxa ▸ hx)
  rw [takeWhile_append_of_pos hsh.data '@' ('v' :: tail) hall (by simp)]

/-- A name matching the backup pattern is nonempty. -/
theorem parseVersioned_name_ne_empty (s : String) (hsh : String) (v : Nat)
    (hp : parseVersioned s = some (hsh, v)) : s ≠ "" := by
  obtain ⟨tail, hd⟩ := parseVersioned_structure s hsh v hp
  intro he
  rw [he] at hd
  simp at hd



/-- Membership in a `filesByHash` group names exactly the listed files whose
regex hash matches. -/
theorem mem_filesByHashGet (names : List String) (h : String) (v : Nat) (f : String) :
    (v, f) ∈ filesByHashGet names h ↔ f ∈ names ∧ parseVersioned f = some (h, v) := by
  unfold filesByHashGet
  rw [List.mem_filterMap]
  constructor
  · rintro ⟨a, ha, hga⟩
    cases hpa : parseVersioned a with
    | none => rw [hpa] at hga; simp at hga
    | some pr =>
      obtain ⟨hf, vv⟩ := pr
      rw [hpa] at hga
      simp only at hga
      by_cases hh : hf = h
      · rw [if_pos hh] at hga
        obtain ⟨h1, h2⟩ := Prod.mk.injEq .. ▸ Option.some.inj hga
        subst h2
        subst h1
        subst hh
        exact ⟨ha, hpa⟩
      · rw [if_neg hh] at hga; simp at hga
  · rintro ⟨hf, hpf⟩
    exact ⟨f, hf, by rw [hpf]; simp⟩

/-- The `reduce` result is one of the grouped files. -/
theorem reduceLatest_mem : ∀ (vs : List (Nat × String)) (v : Nat × String),
    reduceLatest v vs ∈ v :: vs := by
  intro vs
  induction vs with
  | nil => intro v; simp [reduceLatest]
  | cons x t ih =>
    intro v
    have hstep : reduceLatest v (x :: t) = reduceLatest (if x.1 > v.1 then x else v) t := rfl
    rw [hstep]
    by_cases hx : x.1 > v.1
    · rw [if_pos hx]
      exact List.mem_cons_of_mem v (ih x)
    · rw [if_neg hx]
      rcases List.mem_cons.mp (ih v) with h | h
      · exact List.mem_cons.mpr (Or.inl h)
      · exact List.mem_cons.mpr (Or.inr (List.mem_cons_of_mem x h))

/-- The `reduce` result carries the maximum version of the group. -/
theorem reduceLatest_le : ∀ (vs : List (Nat × String)) (v : Nat × String),
    ∀ x ∈ v :: vs, x.1 ≤ (reduceLatest v vs).1 := by
  intro vs
  induction vs with
  | nil =>
    intro v x hx
    rcases List.mem_cons.mp hx with h | h
    · rw [h]; exact Nat.le_refl _
    · simp at h
  | cons y t ih =>
    intro v x hx
    have hstep : reduceLatest v (y :: t) = reduceLatest (if y.1 > v.1 then y else v) t := rfl
    rw [hstep]
    rcases List.mem_cons.mp hx with h | h
    · subst h
      refine Nat.le_trans ?_ (ih _ _ (List.mem_cons_self _ _))
      by_cases hy : y.1 > x.1
      · rw [if_pos hy]; exact Nat.le_of_lt hy
      · rw [if_neg hy]
    · rcases List.mem_cons.mp h with h2 | h2
      · subst h2
        refine Nat.le_trans ?_ (ih _ _ (List.mem_cons_self _ _))
        by_cases hy : x.1 > v.1
        · rw [if_pos hy]
        · rw [if_neg hy]; exact Nat.le_of_not_lt hy
      · exact ih _ _ (List.mem_cons_of_mem _ h2)

/-- Behaviour of the per-entry reconciliation (lines 470-496) for an entry
whose recorded name matches the pattern with an `@`-free hash: replaced by
the maximum on-disk version when one strictly exceeds the recorded version,
unchanged otherwise. -/
theorem reconcileEntry_spec (names : List String) (b : FileBackup) (h : String) (nv : Nat)
    (hp : parseVersioned b.backupFileName = some (h, nv)) (hat : '@' ∉ h.data) :
    ((∃ f v, f ∈ names ∧ parseVersioned f = some (h, v) ∧ b.version < v) →
      ∃ f v, f ∈ names ∧ parseVersioned f = some (h, v) ∧ b.version < v ∧
        (∀ f2 v2, f2 ∈ names → parseVersioned f2 = some (h, v2) → v2 ≤ v) ∧
        reconcileEntry names b = { b with backupFileName := f, version := v }) ∧
    ((∀ f v, f ∈ names → parseVersioned f = some (h, v) → v ≤ b.version) →
      reconcileEntry names b = b) := by
  have hne : b.backupFileName ≠ "" := parseVersioned_name_ne_empty _ _ _ hp
  have hhash : beforeFirstAt b.backupFileName = h := beforeFirstAt_of_parse _ _ _ hp hat
  have hre : reconcileEntry names b =
      (match filesByHashGet names h with
        | [] => b
        | g :: gs =>
          if (reduceLatest g gs).1 > b.version then
            { b with backupFileName := (reduceLatest g gs).2, version := (reduceLatest g gs).1 }
          else b) := by
    unfold reconcileEntry
    rw [if_neg hne, hp, hhash]
  cases hgrp : filesByHashGet names h with
  | nil =>
    rw [hgrp] at hre
    constructor
    · rintro ⟨f, v, hf, hpf, hv⟩
      have : (v, f) ∈ filesByHashGet names h := (mem_filesByHashGet names h v f).mpr ⟨hf, hpf⟩
      rw [hgrp] at this
      simp at this
    · intro _; exact hre
  | cons g gs =>
    rw [hgrp] at hre
    have hre2 : reconcileEntry names b =
        (if (reduceLatest g gs).1 > b.version then
          { b with backupFileName := (reduceLatest g gs).2, version := (reduceLatest g gs).1 }
        else b) := hre
    have hmem : reduceLatest g gs ∈ g :: gs := reduceLatest_mem gs g
    have hmax : ∀ x ∈ g :: gs, x.1 ≤ (reduceLatest g gs).1 := reduceLatest_le gs g
    have hlat : ((reduceLatest g gs).1, (reduceLatest g gs).2) ∈ filesByHashGet names h := by
      rw [hgrp]; simpa using hmem
    obtain ⟨hlf, hlp⟩ := (mem_filesByHashGet names h _ _).mp hlat
    constructor
    · rintro ⟨f, v, hf, hpf, hv⟩
      have hvg : (v, f) ∈ g :: gs := by
        rw [← hgrp]; exact (mem_filesByHashGet names h v f).mpr ⟨hf, hpf⟩
      have hbig : b.version < (reduceLatest g gs).1 :=
        Nat.lt_of_lt_of_le hv (hmax (v, f) hvg)
      refine ⟨(reduceLatest g gs).2, (reduceLatest g gs).1, hlf, hlp, hbig, ?_, ?_⟩
      · intro f2 v2 hf2 hp2
        have : (v2, f2) ∈ g :: gs := by
          rw [← hgrp]; exact (mem_filesByHashGet names h v2 f2).mpr ⟨hf2, hp2⟩
        exact hmax (v2, f2) this
      · rw [hre2, if_pos hbig]
    · intro hall
      have hle : (reduceLatest g gs).1 ≤ b.version := hall _ _ hlf hlp
      rw [hre2, if_neg (by omega)]

/-- C6: the Backup Store Reconciler leaves the base snapshot unchanged when
the directory is missing or unreadable; for a readable listing, an entry
whose recorded `backupFileName` matches `<hash>@v<version>` (with an
`@`-free hash) is replaced by the maximum-version filename/version of the
same hash when that maximum strictly exceeds the recorded version, and is
unchanged when no greater version exists. -/
theorem c6_reconciler (names : List String) (base : TrackedFileBackups)
    (p : String) (b : FileBackup) (h : String) (nv : Nat)
    (hmem : (p, b) ∈ base)
    (hp : parseVersioned b.backupFileName = some (h, nv)) (hat : '@' ∉ h.data) :
    (∀ base2, getLatestSnapshotFromDisk .missing base2 = base2) ∧
    (∀ base2, getLatestSnapshotFromDisk .unreadable base2 = base2) ∧
    ((∃ f v, f ∈ names ∧ parseVersioned f = some (h, v) ∧ b.version < v) →
      ∃ f v, f ∈ names ∧ parseVersioned f = some (h, v) ∧ b.version < v ∧
        (∀ f2 v2, f2 ∈ names → parseVersioned f2 = some (h, v2) → v2 ≤ v) ∧
        (p, { b with backupFileName := f, version := v }) ∈
          getLatestSnapshotFromDisk (.files names) base) ∧
    ((∀ f v, f ∈ names → parseVersioned f = some (h, v) → v ≤ b.version) →
      (p, b) ∈ getLatestSnapshotFromDisk (.files names) base) := by
  obtain ⟨hnew, hold⟩ := reconcileEntry_spec names b h nv hp hat
  have hres : ∀ bb, reconcileEntry names b = bb →
      (p, bb) ∈ getLatestSnapshotFromDisk (.files names) base := by
    intro bb hbb
    have : (p, bb) = (fun pb => (pb.1, reconcileEntry names pb.2)) (p, b) := by
      simp [hbb]
    rw [this]
    exact List.mem_map_of_mem _ hmem
  refine ⟨fun _ => rfl, fun _ => rfl, ?_, ?_⟩
  · intro hex
    obtain ⟨f, v, hf, hpf, hv, hmax, heq⟩ := hnew hex
    exact ⟨f, v, hf, hpf, hv, hmax, hres _ heq⟩
  · intro hall
    exact hres b (hold hall)



/-- Counterexample to C6 as stated: the recorded name `a@b@v1` matches
`<hash>@v<version>` with hash `a@b` and version 1, and the directory holds
`a@b@v2` — the same hash at the strictly greater version 2 — yet the entry is
left unchanged, because line 478 derives the snapshot-side hash as the
substring before the *first* `@` (here `a`), which matches no disk group. -/
theorem c6_at_hash_counterexample :
    parseVersioned "a@b@v1" = some ("a@b", 1) ∧
    parseVersioned "a@b@v2" = some ("a@b", 2) ∧
    (1 : Nat) < 2 ∧
    getLatestSnapshotFromDisk (.files ["a@b@v1", "a@b@v2"])
        [("f", { backupFileName := "a@b@v1", version := 1 })] =
      [("f", { backupFileName := "a@b@v1", version := 1 })] := by
  refine ⟨by decide, by decide, by decide, by decide⟩

/-- Witness for C6: base `{f: h@v1, version 1}` against disk `[h@v1, h@v2]`
reconciles to version 2 with name `h@v2`. -/
theorem c6_reconciler_witness :
    (("f", backupF1) ∈ reconBase ∧ parseVersioned backupF1.backupFileName = some ("h", 1) ∧
      '@' ∉ ("h" : String).data ∧ "h@v2" ∈ reconNames ∧
      parseVersioned "h@v2" = some ("h", 2) ∧ backupF1.version < 2) ∧
    (∃ f v, f ∈ reconNames ∧ parseVersioned f = some ("h", v) ∧ backupF1.version < v ∧
      (∀ f2 v2, f2 ∈ reconNames → parseVersioned f2 = some ("h", v2) → v2 ≤ v) ∧
      ("f", { backupF1 with backupFileName := f, version := v }) ∈
        getLatestSnapshotFromDisk (.files reconNames) reconBase) :=
  ⟨⟨by decide, by decide, by decide, by decide, by decide, by decide⟩,
    (c6_reconciler reconNames reconBase "f" backupF1 "h" 1 (by decide) (by decide)
        (by decide)).2.2.1 ⟨"h@v2", 2, by decide, by decide, by decide⟩⟩

/-- A fold of `Set.add` steps yields a duplicate-free list. -/
theorem foldl_addUnique_nodup : ∀ (l acc : List String), acc.Nodup →
    (l.foldl addUnique acc).Nodup := by
  intro l
  induction l with
  | nil => intro acc h; exact h
  | cons x t ih =>
    intro acc h
    rw [List.foldl_cons]
    apply ih
    unfold addUnique
    by_cases hc : acc.contains x
    · rw [if_pos hc]; exact h
    · rw [if_neg hc]
      rw [List.nodup_append]
      refine ⟨h, List.nodup_singleton x, ?_⟩
      intro a ha hax
      have hax2 : a = x := by simpa using hax
      subst hax2
      exact hc (by simpa [List.elem_iff] using ha)

/-- C7: the snapshot-diff step of the Change-Set Deriver classifies each
normalized path of the before/after key union exactly once (the union is
duplicate-free and the output is its `filterMap`): present only after with
resolvable original content → one `modified` change with both backups null
and `originalContent` set; present only after without → one `added` change;
present only before → one `deleted` change carrying the before backup and a
null after backup; present in both with differing versions → one `modified`
change carrying both backups; equal versions → no change from this step. -/
theorem c7_union_classification (prompt : ParsedPrompt) (proj : Option String)
    (fp : String) :
    (allFiles prompt).Nodup ∧
    getFileChangesForPrompt prompt proj =
      (allFiles prompt).filterMap (classify2 prompt proj) ++
        editedPass prompt (detected2 prompt proj) prompt.editedFiles ∧
    (∀ b c, snapLookup prompt.beforeSnapshot fp = none →
      snapLookup prompt.afterSnapshot fp = some b →
      resolveOriginalStep2 prompt proj fp = some c →
      classify2 prompt proj fp = some
        { filePath := toAbsolutePath proj fp, changeType := .modified,
          beforeBackup := none, afterBackup := none,
          promptNumber := prompt.promptNumber, promptText := prompt.text,
          originalContent := some c }) ∧
    (∀ b, snapLookup prompt.beforeSnapshot fp = none →
      snapLookup prompt.afterSnapshot fp = some b →
      resolveOriginalStep2 prompt proj fp = none →
      classify2 prompt proj fp = some
        { filePath := toAbsolutePath proj fp, changeType := .added,
          beforeBackup := none, afterBackup := none,
          promptNumber := prompt.promptNumber, promptText := prompt.text,
          originalContent := none }) ∧
    (∀ b, snapLookup prompt.beforeSnapshot fp = some b →
      snapLookup prompt.afterSnapshot fp = none →
      classify2 prompt proj fp = some
        { filePath := toAbsolutePath proj fp, changeType := .deleted,
          beforeBackup := some b, afterBackup := none,
          promptNumber := prompt.promptNumber, promptText := prompt.text,
          originalContent := none }) ∧
    (∀ b a2, snapLookup prompt.beforeSnapshot fp = some b →
      snapLookup prompt.afterSnapshot fp = some a2 →
      b.version ≠ a2.version →
      classify2 prompt proj fp = some
        { filePath := toAbsolutePath proj fp, changeType := .modified,
          beforeBackup := some b, afterBackup := some a2,
          promptNumber := prompt.promptNumber, promptText := prompt.text,
          originalContent := none }) ∧
    (∀ b a2, snapLookup prompt.beforeSnapshot fp = some b →
      snapLookup prompt.afterSnapshot fp = some a2 →
      b.version = a2.version →
      classify2 prompt proj fp = none) := by
  refine ⟨foldl_addUnique_nodup _ [] (by simp), rfl, ?_, ?_, ?_, ?_, ?_⟩
  · intro b c h1 h2 h3
    simp [classify2, h1, h2, h3]
  · intro b h1 h2 h3
    simp [classify2, h1, h2, h3]
  · intro b h1 h2
    simp [classify2, h1, h2]
  · intro b a2 h1 h2 h3
    simp [classify2, h1, h2, h3]
  · intro b a2 h1 h2 h3
    simp [classify2, h1, h2, h3]

/-- Witness for C7 at a prompt whose file changed from version 1 to 2. -/
theorem c7_union_classification_witness :
    (snapLookup versionedPrompt.beforeSnapshot "f.ts" = some backupF1 ∧
      snapLookup versionedPrompt.afterSnapshot "f.ts" = some backupF2 ∧
      backupF1.version ≠ backupF2.version ∧
      toAbsolutePath none "f.ts" = "f.ts") ∧
    classify2 versionedPrompt none "f.ts" = some
      { filePath := toAbsolutePath none "f.ts", changeType := .modified,
        beforeBackup := some backupF1, afterBackup := some backupF2,
        promptNumber := versionedPrompt.promptNumber,
        promptText := versionedPrompt.text, originalContent := none } :=
  ⟨⟨by decide, by decide, by decide, by decide⟩,
    (c7_union_classification versionedPrompt none "f.ts").2.2.2.2.2.1 backupF1 backupF2
      (by decide) (by decide) (by decide)⟩

/-- Counterexample to C8 as stated: both paths of `twinEditedPrompt`'s
`editedFiles` share the basename `f.ts` and neither is classified in step 2
(the snapshot-diff step yields nothing), yet only the first emits a change:
the second is skipped by the `detectedFiles` basename check that step 3
itself populated (line 385). -/
theorem c8_same_basename_counterexample :
    twinEditedPrompt.editedFiles = ["a/f.ts", "b/f.ts"] ∧
    (allFiles twinEditedPrompt).filterMap (classify2 twinEditedPrompt none) = [] ∧
    getFileChangesForPrompt twinEditedPrompt none =
      [{ filePath := "a/f.ts", changeType := .added, beforeBackup := none,
         afterBackup := none, promptNumber := 1, promptText := "t",
         originalContent := none }] := by
  refine ⟨rfl, rfl, by decide⟩

/-- C8 (amended): an edited file matching the accumulated `detectedFiles` set
by normalized path or basename — whether populated by step 2 or by an earlier
step-3 emission — emits nothing; otherwise it emits exactly one change:
`modified` carrying the resolved `beforeSnapshot` backup and a null after
backup when such a backup exists, else `modified` with `originalContent` set
when original content is resolvable, else `added`. -/
theorem c8_edited_pass (prompt : ParsedPrompt) (proj : Option String)
    (detected : List String) (e : String) (rest : List String) :
    getFileChangesForPrompt prompt proj =
      (allFiles prompt).filterMap (classify2 prompt proj) ++
        editedPass prompt (detected2 prompt proj) prompt.editedFiles ∧
    ((detected.contains (normalizeFilePath e) || detected.contains (getBasename e)) = true →
      editedPass prompt detected (e :: rest) = editedPass prompt detected rest) ∧
    ((detected.contains (normalizeFilePath e) || detected.contains (getBasename e)) = false →
      editedPass prompt detected (e :: rest) =
        mkEditedChange prompt e ::
          editedPass prompt (detected ++ [normalizeFilePath e, getBasename e]) rest) ∧
    (∀ b, editedBackup prompt e = some b →
      mkEditedChange prompt e =
        { filePath := normalizeFilePath e, changeType := .modified,
          beforeBackup := some b, afterBackup := none,
          promptNumber := prompt.promptNumber, promptText := prompt.text,
          originalContent := none }) ∧
    (∀ c, editedBackup prompt e = none → editedOriginal prompt e = some c →
      mkEditedChange prompt e =
        { filePath := normalizeFilePath e, changeType := .modified,
          beforeBackup := none, afterBackup := none,
          promptNumber := prompt.promptNumber, promptText := prompt.text,
          originalContent := some c }) ∧
    (editedBackup prompt e = none → editedOriginal prompt e = none →
      mkEditedChange prompt e =
        { filePath := normalizeFilePath e, changeType := .added,
          beforeBackup := none, afterBackup := none,
          promptNumber := prompt.promptNumber, promptText := prompt.text,
          originalContent := none }) := by
  have hstep : editedPass prompt detected (e :: rest) =
      if (detected.contains (normalizeFilePath e) ||
          detected.contains (getBasename e)) = true
      then editedPass prompt detected rest
      else mkEditedChange prompt e ::
        editedPass prompt (detected ++ [normalizeFilePath e, getBasename e]) rest := by
    rw [editedPass.eq_def]
  refine ⟨rfl, ?_, ?_, ?_, ?_, ?_⟩
  · intro h
    rw [hstep, if_pos h]
  · intro h
    rw [hstep, if_neg (by rw [h]; exact Bool.false_ne_true)]
  · intro b hb
    simp [mkEditedChange, hb]
  · intro c hb ho
    simp [mkEditedChange, hb, ho]
  · intro hb ho
    simp [mkEditedChange, hb, ho]

/-- Witness for C8: one edited file with equal snapshots and a before
backup. -/
theorem c8_edited_pass_witness :
    (((detected2 editedOnlyPrompt none).contains (normalizeFilePath "f.ts") ||
        (detected2 editedOnlyPrompt none).contains (getBasename "f.ts")) = false ∧
      editedBackup editedOnlyPrompt "f.ts" = some backupF1) ∧
    editedPass editedOnlyPrompt (detected2 editedOnlyPrompt none) ["f.ts"] =
      [mkEditedChange editedOnlyPrompt "f.ts"] ∧
    mkEditedChange editedOnlyPrompt "f.ts" =
      { filePath := normalizeFilePath "f.ts", changeType := .modified,
        beforeBackup := some backupF1, afterBackup := none,
        promptNumber := editedOnlyPrompt.promptNumber,
        promptText := editedOnlyPrompt.text, originalContent := none } :=
  ⟨⟨by decide, by decide⟩,
    by
      rw [(c8_edited_pass editedOnlyPrompt none (detected2 editedOnlyPrompt none)
        "f.ts" []).2.2.1 (by decide)]
      rfl,
    (c8_edited_pass editedOnlyPrompt none (detected2 editedOnlyPrompt none)
        "f.ts" []).2.2.2.1 backupF1 (by decide)⟩

end CCSV
